import Mathlib

/-!
Verification of the codeblock-label plugin (`src/main.ts`).

The plugin's one routine, `markdownPostProcessor`, inspects the raw source
lines of a rendered block, matches the first line against
`REGEX_FENCED_CODEBLOCK_START`, decides on a label text, and mutates the
rendered output.  We embed the string processing over `List Char` with
JavaScript-faithful semantics (`trim`, `split`, `slice`, regex capture
groups, `== null` checks), and model the rendered DOM subtree as a record
of the observable mutations the routine can perform.  Places where the
JavaScript could in principle throw a `TypeError` (calling a method on
`undefined`) are modelled as an `Except.error` branch, so that the
no-throw property is a provable statement rather than true by construction.
-/

namespace CodeblockLabels

/-- A JavaScript string, modelled as its list of characters. -/
abbrev JSStr := List Char

/-- The backtick character (U+0060). -/
def btick : Char := Char.ofNat 96

/-- The opening-brace character (U+007B). -/
def lbrace : Char := Char.ofNat 123

/-- The closing-brace character (U+007D). -/
def rbrace : Char := Char.ofNat 125

/-- JavaScript whitespace: the character set matched by `\s` in a regular
expression, which is also the set stripped by `String.prototype.trim`
(WhiteSpace plus LineTerminator). -/
def isJsWhitespace (c : Char) : Bool :=
  c == ' ' || c == '\t' || c == '\n' || c == '\r' || c == '\x0b' || c == '\x0c' ||
  c == '\u00A0' || c == '\u1680' || ('\u2000' ≤ c && c ≤ '\u200A') ||
  c == '\u2028' || c == '\u2029' || c == '\u202F' || c == '\u205F' ||
  c == '\u3000' || c == '\uFEFF'

/-- JavaScript `String.prototype.trim`: strip whitespace from both ends. -/
def jsTrim (s : JSStr) : JSStr :=
  ((s.dropWhile isJsWhitespace).reverse.dropWhile isJsWhitespace).reverse

/-- JavaScript `String.prototype.split('\n')`. -/
def splitNl : JSStr → List JSStr
  | [] => [[]]
  | c :: cs =>
    if c = '\n' then [] :: splitNl cs
    else
      match splitNl cs with
      | [] => [[c]]
      | l :: ls => (c :: l) :: ls

/-- JavaScript `Array.prototype.slice(start, stop)` for non-negative
indices: the elements at positions `start ≤ i < stop`, clamped to the
array's bounds. -/
def jsSlice (l : List α) (start stop : Nat) : List α :=
  (l.take stop).drop start

/-- `line.startsWith('\x60\x60\x60')`: three backticks open the line. -/
def startsTicks (s : JSStr) : Bool :=
  [btick, btick, btick].isPrefixOf s

/-- `line.endsWith('\x60\x60\x60')`: three backticks close the line.  A
string ends with `t` iff its reversal starts with `t` reversed; three
backticks are their own reversal. -/
def endsTicks (s : JSStr) : Bool :=
  [btick, btick, btick].isPrefixOf s.reverse

/-- The character class `[^\s^{]` of `REGEX_FENCED_CODEBLOCK_START`: the
negated class contains `\s`, a literal caret, and the opening brace. -/
def langClass (c : Char) : Bool :=
  !(isJsWhitespace c) && c != '^' && c != lbrace

/-- Result of a successful match of `REGEX_FENCED_CODEBLOCK_START`:
the two named capture groups, each possibly undefined. -/
structure HeaderMatch where
  lang : Option JSStr
  label : Option JSStr
deriving DecidableEq

/-- `line.match(REGEX_FENCED_CODEBLOCK_START)` for the regex

    `^ BTK BTK BTK (?<lang>[^\s^\x7b]+)?\s*(?:\x7b(?<label>[^\x7d]+)\x7d)?`

(with `BTK` a backtick), `none` when the regex does not match.  The
pattern is anchored at the start and everything after the backticks is
optional, so after three backticks the match proceeds deterministically:
`lang` takes the maximal run of class characters (undefined when empty),
`\s*` the maximal whitespace run, and the label group captures iff an
opening brace follows with at least one non-closing-brace character and
then a closing brace — the optional group matches empty otherwise, so no
backtracking into the earlier greedy quantifiers can occur. -/
def matchFencedStart (s : JSStr) : Option HeaderMatch :=
  if startsTicks s then
    let rest := s.drop 3
    let langRun := rest.takeWhile langClass
    let rest2 := (rest.drop langRun.length).dropWhile isJsWhitespace
    let label : Option JSStr :=
      match rest2 with
      | [] => none
      | c :: cs =>
        if c = lbrace then
          let inner := cs.takeWhile (fun d => d != rbrace)
          if inner.isEmpty then none
          else
            match cs.drop inner.length with
            | d :: _ => if d = rbrace then some inner else none
            | [] => none
        else none
    some { lang := if langRun.isEmpty then none else some langRun
           label := label }
  else none

/-- The object returned by `ctx.getSectionInfo(el)`: the full document
text and the 0-based line range attributed to this rendered block. -/
structure SectionInfo where
  text : JSStr
  lineStart : Nat
  lineEnd : Nat
deriving DecidableEq

/-- The label `p` element created on success (class `codeblock-label`,
text content `labelText`). -/
structure LabelElem where
  text : JSStr
deriving DecidableEq

/-- The rendered DOM subtree for one block, abstracted to the parts the
routine observes and mutates: whether a `pre > code` descendant exists,
the prepended label children (most recently prepended first), whether the
`labeled-codeblock` class was added, and the `language` data attribute
(`none` when never assigned; `some v` once assigned value `v`, where `v`
itself may be the undefined capture group). -/
structure RenderedOutput where
  hasPreCode : Bool
  labels : List LabelElem
  labeledClass : Bool
  datasetLanguage : Option (Option JSStr)
deriving DecidableEq

/-- The in-memory `CBLSettings` object (`ignoreLanguages` is an optional
field in the TypeScript interface). -/
structure CBLSettings where
  ignoreLanguages : Option JSStr
  showLanguageAsLabel : Bool
deriving DecidableEq

/-- The default `ignoreLanguages` string. -/
def defaultIgnoreLanguages : JSStr := "dataview\ndataviewjs\ntasks".data

/-- `DEFAULT_SETTINGS` from the source. -/
def DEFAULT_SETTINGS : CBLSettings :=
  { ignoreLanguages := some defaultIgnoreLanguages
    showLanguageAsLabel := true }

/-- The shape of the persisted data handed back by `loadData()`: the
call resolves to `null` (modelled by passing `none` to `loadSettings`)
or to an object in which either key may be missing. -/
structure PersistedData where
  ignoreLanguages : Option JSStr
  showLanguageAsLabel : Option Bool
deriving DecidableEq

/-- `loadSettings`: `Object.assign(\x7b\x7d, DEFAULT_SETTINGS, await this.loadData())`.
`Object.assign` ignores a `null` source and copies own keys of an object
source over the defaults, so a missing key keeps its default value. -/
def loadSettings (d : Option PersistedData) : CBLSettings :=
  match d with
  | none => DEFAULT_SETTINGS
  | some p =>
    { ignoreLanguages := some (p.ignoreLanguages.getD defaultIgnoreLanguages)
      showLanguageAsLabel := p.showLanguageAsLabel.getD DEFAULT_SETTINGS.showLanguageAsLabel }

/-- The `ignoreLanguages` list computed at the top of `markdownPostProcessor`:
`this.settings.ignoreLanguages ? this.settings.ignoreLanguages.trim().split('\n') : []`.
A missing or empty string is falsy in JavaScript, giving the empty list. -/
def ignoreLanguagesList (settings : CBLSettings) : List JSStr :=
  match settings.ignoreLanguages with
  | none => []
  | some t => if t.isEmpty then [] else splitNl (jsTrim t)

/-- `array.includes(x)` where `x` is a possibly-undefined string.  The
array, produced by `split`, contains only strings, so `includes(undefined)`
is false. -/
def jsIncludes (l : List JSStr) (x : Option JSStr) : Bool :=
  match x with
  | none => false
  | some s => l.contains s

/-- The success-path mutation: prepend a label element carrying `t`, add
the `labeled-codeblock` class, and assign the (possibly undefined)
`language` capture to the `language` data attribute. -/
def applyLabel (el : RenderedOutput) (t : JSStr) (language : Option JSStr) : RenderedOutput :=
  { el with labels := ⟨t⟩ :: el.labels
            labeledClass := true
            datasetLanguage := some language }

/-- The `lines` computed from the section info:
`section.text.split('\n').map((s) => s.trim()).slice(section.lineStart, section.lineEnd + 1)`. -/
def linesOf (sec : SectionInfo) : List JSStr :=
  jsSlice ((splitNl sec.text).map jsTrim) sec.lineStart (sec.lineEnd + 1)

/-- `markdownPostProcessor` (the `process` routine of the spec), embedded
as a function from the rendered output, the section info resolved from the
context (`none` when `getSectionInfo` returned `null`), and the settings,
to the resulting rendered output.  `Except.error ()` marks the one place
the JavaScript would throw a `TypeError`: calling `.startsWith` /
`.endsWith` on the `undefined` produced by `lines[0]` or `lines.last()`
on a too-short array.  The guard `lines.length < 2` short-circuits before
those accesses, which is what the no-throw theorem checks. -/
def markdownPostProcessor (el : RenderedOutput) (si : Option SectionInfo)
    (settings : CBLSettings) : Except Unit RenderedOutput :=
  if el.hasPreCode = false then .ok el
  else
    match si with
    | none => .ok el
    | some sec =>
      if (linesOf sec).length < 2 then .ok el
      else
        match (linesOf sec).head?, (linesOf sec).getLast? with
        | some first, some last =>
          if startsTicks first = false then .ok el
          else if endsTicks last = false then .ok el
          else
            match matchFencedStart first with
            | none => .ok el
            | some m =>
              if jsIncludes (ignoreLanguagesList settings) m.lang then .ok el
              else
                match (if m.label.isNone && settings.showLanguageAsLabel then m.lang else m.label) with
                | none => .ok el
                | some t => .ok (applyLabel el t m.lang)
        | _, _ => .error ()

/-- Modelled from the spec's words, for comparison with the regex of the
source: "language token is any run of non-whitespace, non-`\x7b` characters
immediately after the backticks".  (The source's character class
additionally excludes a literal caret.) -/
def specLanguageTokenRun (rest : JSStr) : JSStr :=
  rest.takeWhile (fun c => !(isJsWhitespace c) && c != lbrace)

/-! ### Helper lemmas -/

theorem exists_head?_of_not_short {α : Type} {l : List α} (h : ¬ l.length < 2) :
    ∃ a, l.head? = some a := by
  cases l with
  | nil => simp at h
  | cons a t => exact ⟨a, rfl⟩

theorem exists_getLast?_of_not_short {α : Type} {l : List α} (h : ¬ l.length < 2) :
    ∃ a, l.getLast? = some a := by
  have hne : l ≠ [] := by
    intro he
    subst he
    simp at h
  exact Option.isSome_iff_exists.mp (List.getLast?_isSome.mpr hne)

theorem mpp_no_pre {el : RenderedOutput} {si : Option SectionInfo} {settings : CBLSettings}
    (h : el.hasPreCode = false) :
    markdownPostProcessor el si settings = .ok el := by
  unfold markdownPostProcessor
  rw [h]
  simp

theorem mpp_no_section {el : RenderedOutput} {si : Option SectionInfo} {settings : CBLSettings}
    (h : si = none) :
    markdownPostProcessor el si settings = .ok el := by
  subst h
  unfold markdownPostProcessor
  by_cases hpre : el.hasPreCode = false <;> simp [hpre]

theorem mpp_short {el : RenderedOutput} {si : Option SectionInfo} {settings : CBLSettings}
    {sec : SectionInfo}
    (hsec : si = some sec) (h : (linesOf sec).length < 2) :
    markdownPostProcessor el si settings = .ok el := by
  subst hsec
  unfold markdownPostProcessor
  by_cases hpre : el.hasPreCode = false <;> simp [hpre, h]

theorem mpp_guards_pass {el : RenderedOutput} {si : Option SectionInfo} {settings : CBLSettings}
    {sec : SectionInfo} {first last : JSStr}
    (hpre : el.hasPreCode = true)
    (hsec : si = some sec)
    (hlen : ¬ (linesOf sec).length < 2)
    (hfirst : (linesOf sec).head? = some first)
    (hlast : (linesOf sec).getLast? = some last) :
    markdownPostProcessor el si settings =
      (if startsTicks first = false then .ok el
       else if endsTicks last = false then .ok el
       else
         match matchFencedStart first with
         | none => .ok el
         | some m =>
           if jsIncludes (ignoreLanguagesList settings) m.lang then .ok el
           else
             match (if m.label.isNone && settings.showLanguageAsLabel then m.lang else m.label) with
             | none => .ok el
             | some t => .ok (applyLabel el t m.lang)) := by
  subst hsec
  unfold markdownPostProcessor
  rw [hpre]
  simp only [Bool.true_eq_false, if_false, if_neg hlen, hfirst, hlast]

theorem bool_eq_true_of_ne_false {b : Bool} (h : ¬ b = false) : b = true := by
  cases b
  · exact absurd rfl h
  · rfl

/-! ### Claim theorems -/

/-- Claim C5: for every input (rendered subtree, section info possibly null,
arbitrary source text, arbitrary settings), `markdownPostProcessor` never
throws: every run reaches an `Except.ok` result, every failure mode being
a silent no-op — the `Except.error` branch modelling a `TypeError` on the
`lines[0]` / `lines.last()` accesses is unreachable because the
`lines.length < 2` guard short-circuits first. -/
theorem c5_process_never_throws (el : RenderedOutput) (si : Option SectionInfo)
    (settings : CBLSettings) :
    ∃ out, markdownPostProcessor el si settings = Except.ok out := by
  by_cases hpre : el.hasPreCode = false
  · exact ⟨el, mpp_no_pre hpre⟩
  have hpre' : el.hasPreCode = true := bool_eq_true_of_ne_false hpre
  cases si with
  | none => exact ⟨el, mpp_no_section rfl⟩
  | some sec =>
    by_cases hlen : (linesOf sec).length < 2
    · exact ⟨el, mpp_short rfl hlen⟩
    obtain ⟨first, hfirst⟩ := exists_head?_of_not_short hlen
    obtain ⟨last, hlast⟩ := exists_getLast?_of_not_short hlen
    rw [mpp_guards_pass hpre' rfl hlen hfirst hlast]
    by_cases ht1 : startsTicks first = false
    · exact ⟨el, if_pos ht1⟩
    rw [if_neg ht1]
    by_cases ht2 : endsTicks last = false
    · exact ⟨el, if_pos ht2⟩
    rw [if_neg ht2]
    cases hm : matchFencedStart first with
    | none => exact ⟨el, rfl⟩
    | some m =>
      show ∃ out,
        (if jsIncludes (ignoreLanguagesList settings) m.lang then Except.ok el
         else
           match (if m.label.isNone && settings.showLanguageAsLabel then m.lang else m.label) with
           | none => Except.ok el
           | some t => Except.ok (applyLabel el t m.lang)) = Except.ok out
      by_cases hig : jsIncludes (ignoreLanguagesList settings) m.lang = true
      · exact ⟨el, if_pos hig⟩
      rw [if_neg hig]
      cases hlab : (if m.label.isNone && settings.showLanguageAsLabel then m.lang else m.label) with
      | none => exact ⟨el, rfl⟩
      | some t => exact ⟨applyLabel el t m.lang, rfl⟩

/-- Claim C7: the routine's decision is a pure function of its inputs — two
invocations on identical rendered outputs, identical resolved section
info, and identical settings produce identical results. -/
theorem c7_decision_deterministic (el₁ el₂ : RenderedOutput) (si₁ si₂ : Option SectionInfo)
    (s₁ s₂ : CBLSettings)
    (h1 : el₁ = el₂) (h2 : si₁ = si₂) (h3 : s₁ = s₂) :
    markdownPostProcessor el₁ si₁ s₁ = markdownPostProcessor el₂ si₂ s₂ := by
  subst h1
  subst h2
  subst h3
  rfl

theorem c7_witness :
    markdownPostProcessor ⟨true, [], false, none⟩ none DEFAULT_SETTINGS =
      markdownPostProcessor ⟨true, [], false, none⟩ none DEFAULT_SETTINGS :=
  c7_decision_deterministic _ _ _ _ _ _ rfl rfl rfl

/-- Claim C9: every trimmed line that starts with three backticks is matched by
`REGEX_FENCED_CODEBLOCK_START` (both capture groups and the trailing
whitespace being optional), so the abort branch for a null match result is
unreachable once the `startsWith` guard has passed. -/
theorem c9_regex_matches_after_ticks (s : JSStr) (h : startsTicks s = true) :
    (matchFencedStart s).isSome = true := by
  unfold matchFencedStart
  rw [h]
  simp

theorem c9_witness : (matchFencedStart ("```".data)).isSome = true :=
  c9_regex_matches_after_ticks ("```".data) (by decide)

/-- Claim C1: for every block span passing all guards whose language is not in
the ignore list: if the header's brace-delimited label group is captured,
the applied label text equals that captured label; otherwise, if
`settings.showLanguageAsLabel` is true and a language token was captured,
the applied label text equals the language token; otherwise the routine
aborts and the rendered output is left unmodified. -/
theorem c1_label_decision (el : RenderedOutput) (si : Option SectionInfo)
    (settings : CBLSettings) (sec : SectionInfo) (first last : JSStr) (m : HeaderMatch)
    (hpre : el.hasPreCode = true)
    (hsec : si = some sec)
    (hlen : ¬ (linesOf sec).length < 2)
    (hfirst : (linesOf sec).head? = some first)
    (hlast : (linesOf sec).getLast? = some last)
    (ht1 : startsTicks first = true)
    (ht2 : endsTicks last = true)
    (hm : matchFencedStart first = some m)
    (hig : jsIncludes (ignoreLanguagesList settings) m.lang = false) :
    (∀ lab, m.label = some lab →
      markdownPostProcessor el si settings = Except.ok (applyLabel el lab m.lang)) ∧
    (m.label = none → settings.showLanguageAsLabel = true → ∀ lg, m.lang = some lg →
      markdownPostProcessor el si settings = Except.ok (applyLabel el lg m.lang)) ∧
    (m.label = none → (settings.showLanguageAsLabel = false ∨ m.lang = none) →
      markdownPostProcessor el si settings = Except.ok el) := by
  have key : markdownPostProcessor el si settings =
      match (if m.label.isNone && settings.showLanguageAsLabel then m.lang else m.label) with
      | none => Except.ok el
      | some t => Except.ok (applyLabel el t m.lang) := by
    rw [mpp_guards_pass hpre hsec hlen hfirst hlast, ht1, ht2, hm]
    show (if jsIncludes (ignoreLanguagesList settings) m.lang then Except.ok el
      else
        match (if m.label.isNone && settings.showLanguageAsLabel then m.lang else m.label) with
        | none => Except.ok el
        | some t => Except.ok (applyLabel el t m.lang)) = _
    rw [hig]
    rfl
  refine ⟨?_, ?_, ?_⟩
  · intro lab hlab
    rw [key, hlab]
    rfl
  · intro hlab hshow lg hlg
    rw [key, hlab, hshow, hlg]
    rfl
  · intro hlab hcase
    rcases hcase with hshow | hlang
    · rw [key, hlab, hshow]
      rfl
    · rw [key, hlab, hlang]
      cases hb : settings.showLanguageAsLabel <;> rfl

theorem c1_witness :
    markdownPostProcessor ⟨true, [], false, none⟩
        (some ⟨"```python \x7bMy Script\x7d\nx = 1\n```".data, 0, 2⟩) DEFAULT_SETTINGS =
      Except.ok (applyLabel ⟨true, [], false, none⟩ "My Script".data (some "python".data)) :=
  (c1_label_decision ⟨true, [], false, none⟩
      (some ⟨"```python \x7bMy Script\x7d\nx = 1\n```".data, 0, 2⟩) DEFAULT_SETTINGS
      ⟨"```python \x7bMy Script\x7d\nx = 1\n```".data, 0, 2⟩
      ("```python \x7bMy Script\x7d".data) ("```".data)
      ⟨some "python".data, some "My Script".data⟩
      rfl rfl (by decide) (by decide) (by decide) (by decide) (by decide) (by decide)
      (by decide)).1 ("My Script".data) rfl

/-- Claim C2: for every language string present in the trimmed, newline-split
`settings.ignoreLanguages` list, and for every block span whose captured
language token is exactly (case-sensitively) that string, the routine
leaves the rendered output unmodified — regardless of
`settings.showLanguageAsLabel` and of whether the header carries an
explicit brace-delimited label directive. -/
theorem c2_ignored_language (el : RenderedOutput) (si : Option SectionInfo)
    (settings : CBLSettings) (sec : SectionInfo) (first : JSStr) (m : HeaderMatch) (lg : JSStr)
    (hsec : si = some sec)
    (hfirst : (linesOf sec).head? = some first)
    (hm : matchFencedStart first = some m)
    (hlang : m.lang = some lg)
    (hmem : (ignoreLanguagesList settings).contains lg = true) :
    markdownPostProcessor el si settings = Except.ok el := by
  by_cases hpre : el.hasPreCode = false
  · exact mpp_no_pre hpre
  have hpre' : el.hasPreCode = true := bool_eq_true_of_ne_false hpre
  by_cases hlen : (linesOf sec).length < 2
  · exact mpp_short hsec hlen
  obtain ⟨last, hlast⟩ := exists_getLast?_of_not_short hlen
  rw [mpp_guards_pass hpre' hsec hlen hfirst hlast]
  by_cases ht1 : startsTicks first = false
  · rw [if_pos ht1]
  rw [if_neg ht1]
  by_cases ht2 : endsTicks last = false
  · rw [if_pos ht2]
  rw [if_neg ht2]
  rw [hm]
  show (if jsIncludes (ignoreLanguagesList settings) m.lang then Except.ok el
    else
      match (if m.label.isNone && settings.showLanguageAsLabel then m.lang else m.label) with
      | none => Except.ok el
      | some t => Except.ok (applyLabel el t m.lang)) = Except.ok el
  have hig : jsIncludes (ignoreLanguagesList settings) m.lang = true := by
    rw [hlang]
    exact hmem
  rw [if_pos hig]

theorem c2_witness :
    markdownPostProcessor ⟨true, [], false, none⟩
        (some ⟨"```dataview\nq\n```".data, 0, 2⟩) DEFAULT_SETTINGS =
      Except.ok ⟨true, [], false, none⟩ :=
  c2_ignored_language ⟨true, [], false, none⟩
    (some ⟨"```dataview\nq\n```".data, 0, 2⟩) DEFAULT_SETTINGS
    ⟨"```dataview\nq\n```".data, 0, 2⟩ ("```dataview".data)
    ⟨some "dataview".data, none⟩ ("dataview".data)
    rfl (by decide) (by decide) rfl (by decide)

/-- Claim C3: whenever any guard fails — no `pre > code` descendant, an
unresolvable block span, fewer than 2 trimmed lines, a first trimmed line
not starting with three backticks, a last trimmed line not ending with
three backticks, or the header regex not matching — the routine performs
no mutation of the rendered output. -/
theorem c3_guard_failure_no_mutation (el : RenderedOutput) (si : Option SectionInfo)
    (settings : CBLSettings)
    (h : el.hasPreCode = false ∨ si = none ∨
      ∃ sec, si = some sec ∧
        ((linesOf sec).length < 2 ∨
         (∃ first, (linesOf sec).head? = some first ∧
            (startsTicks first = false ∨ matchFencedStart first = none)) ∨
         (∃ last, (linesOf sec).getLast? = some last ∧ endsTicks last = false))) :
    markdownPostProcessor el si settings = Except.ok el := by
  rcases h with h | h | ⟨sec, hsec, h⟩
  · exact mpp_no_pre h
  · exact mpp_no_section h
  by_cases hpre : el.hasPreCode = false
  · exact mpp_no_pre hpre
  have hpre' : el.hasPreCode = true := bool_eq_true_of_ne_false hpre
  by_cases hlen : (linesOf sec).length < 2
  · exact mpp_short hsec hlen
  obtain ⟨first, hfirst⟩ := exists_head?_of_not_short hlen
  obtain ⟨last, hlast⟩ := exists_getLast?_of_not_short hlen
  rw [mpp_guards_pass hpre' hsec hlen hfirst hlast]
  rcases h with h | ⟨first', hfirst', hbad⟩ | ⟨last', hlast', hbad⟩
  · exact absurd h hlen
  · have hf : first' = first := by
      rw [hfirst] at hfirst'
      exact (Option.some_inj.mp hfirst').symm
    rw [hf] at hbad
    rcases hbad with hb | hb
    · rw [if_pos hb]
    · by_cases ht1 : startsTicks first = false
      · rw [if_pos ht1]
      rw [if_neg ht1]
      by_cases ht2 : endsTicks last = false
      · rw [if_pos ht2]
      rw [if_neg ht2]
      rw [hb]
  · have hl : last' = last := by
      rw [hlast] at hlast'
      exact (Option.some_inj.mp hlast').symm
    rw [hl] at hbad
    by_cases ht1 : startsTicks first = false
    · rw [if_pos ht1]
    rw [if_neg ht1]
    rw [if_pos hbad]

theorem c3_witness :
    markdownPostProcessor ⟨false, [], false, none⟩ none DEFAULT_SETTINGS =
      Except.ok ⟨false, [], false, none⟩ :=
  c3_guard_failure_no_mutation ⟨false, [], false, none⟩ none DEFAULT_SETTINGS (Or.inl rfl)

/-- Claim C10: for every well-formed block span whose header carries an explicit
non-empty brace-delimited label but no language token, the routine
succeeds and applies that label even though the captured language is
unset, and it still executes the assignment of the unset language value to
the output's `language` data attribute. -/
theorem c10_explicit_label_without_language (el : RenderedOutput) (si : Option SectionInfo)
    (settings : CBLSettings) (sec : SectionInfo) (first last lab : JSStr)
    (hpre : el.hasPreCode = true)
    (hsec : si = some sec)
    (hlen : ¬ (linesOf sec).length < 2)
    (hfirst : (linesOf sec).head? = some first)
    (hlast : (linesOf sec).getLast? = some last)
    (ht1 : startsTicks first = true)
    (ht2 : endsTicks last = true)
    (hm : matchFencedStart first = some ⟨none, some lab⟩)
    (_hne : lab ≠ []) :
    markdownPostProcessor el si settings = Except.ok (applyLabel el lab none) ∧
    (applyLabel el lab none).datasetLanguage = some none ∧
    (applyLabel el lab none).labels = ⟨lab⟩ :: el.labels := by
  refine ⟨?_, rfl, rfl⟩
  rw [mpp_guards_pass hpre hsec hlen hfirst hlast, ht1, ht2, hm]
  rfl

theorem c10_witness :
    markdownPostProcessor ⟨true, [], false, none⟩
        (some ⟨"```\x7bMy Label\x7d\nq\n```".data, 0, 2⟩) DEFAULT_SETTINGS =
      Except.ok (applyLabel ⟨true, [], false, none⟩ "My Label".data none) ∧
    (applyLabel (⟨true, [], false, none⟩ : RenderedOutput) "My Label".data none).datasetLanguage =
      some none ∧
    (applyLabel (⟨true, [], false, none⟩ : RenderedOutput) "My Label".data none).labels =
      [⟨"My Label".data⟩] :=
  c10_explicit_label_without_language ⟨true, [], false, none⟩
    (some ⟨"```\x7bMy Label\x7d\nq\n```".data, 0, 2⟩) DEFAULT_SETTINGS
    ⟨"```\x7bMy Label\x7d\nq\n```".data, 0, 2⟩
    ("```\x7bMy Label\x7d".data) ("```".data) ("My Label".data)
    rfl rfl (by decide) (by decide) (by decide) (by decide) (by decide) (by decide) (by decide)

/-- Claim C4 is false as stated: for a header whose brace-delimited label
directive has empty content, the regex does not capture an empty string
for the label group.  The label group's body `[^\x7d]+` requires at least
one character, so on the header made of three backticks, `js`, a space and
`\x7b\x7d` the group is undefined (`none`), not the empty string.
(Moreover an empty string would not satisfy the `== null` check the code
uses, since `"" == null` is false in JavaScript.) -/
theorem c4_counterexample :
    (matchFencedStart ("```js \x7b\x7d".data)).map HeaderMatch.label = some none ∧
    (matchFencedStart ("```js \x7b\x7d".data)).map HeaderMatch.label ≠ some (some []) := by
  exact ⟨by decide, by decide⟩

/-- Claim C4 (amended): the label group of `REGEX_FENCED_CODEBLOCK_START`
never captures an empty string — its body `[^\x7d]+` requires at least one
character, so empty braces leave the group undefined, and that undefined
value satisfies the `== null` check that decides the fallback to the
language. -/
theorem c4_label_capture_never_empty (s : JSStr) (m : HeaderMatch) (lab : JSStr)
    (hm : matchFencedStart s = some m) (hlab : m.label = some lab) :
    lab ≠ [] := by
  by_cases hst : startsTicks s = true
  · simp only [matchFencedStart, hst, if_true] at hm
    injection hm with hm'
    rw [← hm'] at hlab
    dsimp only at hlab
    split at hlab
    · exact absurd hlab (by simp)
    split at hlab
    · split at hlab
      · exact absurd hlab (by simp)
      · next hinner =>
        split at hlab
        · split at hlab
          · rw [Option.some_inj] at hlab
            intro hcon
            rw [hcon] at hlab
            rw [hlab] at hinner
            simp at hinner
          · exact absurd hlab (by simp)
        · exact absurd hlab (by simp)
    · exact absurd hlab (by simp)
  · simp [matchFencedStart, hst] at hm

theorem c4_witness : ("a".data : JSStr) ≠ [] :=
  c4_label_capture_never_empty ("```js \x7ba\x7d".data)
    ⟨some "js".data, some "a".data⟩ ("a".data) (by decide) rfl

/-- Claim C6 is false as stated: in the header made of three backticks
followed by `a^b`, the maximal run of non-whitespace, non-opening-brace
characters after the backticks is `a^b`, but the character class
`[^\s^\x7b]` of the source regex also excludes a literal caret, so the
captured language token is just `a`. -/
theorem c6_counterexample :
    specLanguageTokenRun (("```a^b".data).drop 3) = "a^b".data ∧
    (matchFencedStart ("```a^b".data)).map HeaderMatch.lang = some (some "a".data) ∧
    some (some ("a".data)) ≠ some (some ("a^b".data)) := by
  exact ⟨by decide, by decide, by decide⟩

/-- Claim C6 (amended): for every header line made of three backticks
followed by `rest`, the captured language token is the maximal run of
characters of `rest` that are neither whitespace nor a caret nor an
opening brace — absent when that run is empty. -/
theorem c6_lang_is_maximal_class_run (rest : JSStr) :
    ∃ run tail, rest = run ++ tail ∧ run.all langClass = true ∧
      (∀ c, tail.head? = some c → langClass c = false) ∧
      (matchFencedStart ([btick, btick, btick] ++ rest)).map HeaderMatch.lang =
        some (if run.isEmpty then none else some run) := by
  have hhead : ∀ c, ((rest.dropWhile langClass).head? = some c → langClass c = false) := by
    intro c hc
    have h := List.head?_dropWhile_not langClass rest
    rw [hc] at h
    exact h
  refine ⟨rest.takeWhile langClass, rest.dropWhile langClass,
    (List.takeWhile_append_dropWhile _ _).symm, List.all_takeWhile, hhead, ?_⟩
  have hst : startsTicks ([btick, btick, btick] ++ rest) = true := by
    unfold startsTicks
    exact List.isPrefixOf_iff_prefix.mpr (List.prefix_append _ _)
  have hdrop : ([btick, btick, btick] ++ rest).drop 3 = rest :=
    List.drop_left [btick, btick, btick] rest
  unfold matchFencedStart
  rw [hst, hdrop]
  rfl

/-- Claim C8: after `loadSettings` completes — for every persisted value,
including `null` and objects missing either key — the in-memory settings
object has both fields present (`showLanguageAsLabel` is a mandatory
boolean field of the record, and `ignoreLanguages` is always `some`), and
any field absent from the persisted data equals its default
(`ignoreLanguages` the three-line `dataview`/`dataviewjs`/`tasks` string,
`showLanguageAsLabel` true). -/
theorem c8_load_settings_defaults (d : Option PersistedData) :
    (loadSettings d).ignoreLanguages.isSome = true ∧
    defaultIgnoreLanguages = "dataview\ndataviewjs\ntasks".data ∧
    DEFAULT_SETTINGS.showLanguageAsLabel = true ∧
    (d = none → loadSettings d = DEFAULT_SETTINGS) ∧
    (∀ p, d = some p →
      (p.ignoreLanguages = none →
        (loadSettings d).ignoreLanguages = some defaultIgnoreLanguages) ∧
      (p.showLanguageAsLabel = none →
        (loadSettings d).showLanguageAsLabel = true)) := by
  refine ⟨?_, rfl, rfl, ?_, ?_⟩
  · cases d with
    | none => rfl
    | some p => rfl
  · intro h
    subst h
    rfl
  · intro p hp
    subst hp
    constructor
    · intro h
      simp [loadSettings, h]
    · intro h
      simp [loadSettings, h, DEFAULT_SETTINGS]

theorem c8_witness :
    (loadSettings (some ⟨none, none⟩)).ignoreLanguages = some defaultIgnoreLanguages ∧
    (loadSettings (some ⟨none, none⟩)).showLanguageAsLabel = true :=
  ⟨((c8_load_settings_defaults (some ⟨none, none⟩)).2.2.2.2 ⟨none, none⟩ rfl).1 rfl,
   ((c8_load_settings_defaults (some ⟨none, none⟩)).2.2.2.2 ⟨none, none⟩ rfl).2 rfl⟩

end CodeblockLabels
